import Mathlib

/-!
Shallow embedding of the multi-stop route sequencing engine of
`ml-service/services/route_optimization.py` (class `RouteOptimizer`),
together with theorems settling the specification claims about it.

Modelling conventions:
* A Python stop dictionary is a `Stop` whose two fields are `Option String`:
  `none` models a dict that lacks the key, and the source's
  `stop.get("location", "")` / `stop.get("shipment_id", "")` accesses become
  `Stop.loc` / `Stop.sid` (`Option.getD ""`).
* All distances produced by `_estimate_distance` are Python ints, so they are
  embedded as `Nat`; quantities obtained by true division (`/`) are embedded
  as `ℚ`.  Python's `round(x, n)` (round-half-to-even at `n` decimals) is
  `round2` / `round1` over `ℚ`.
* `f"+{t:.1f}h"` only renders the cumulative time; the embedding keeps the
  underlying rational in `estimated_arrival`.
* `_format_route_response` divides by `unoptimized_distance`; when that value
  is `0` Python raises `ZeroDivisionError`, so the formatter (and hence
  `optimize`) returns an `Option`, with `none` as the raised exception.
-/

namespace RouteOptimization

/-- A delivery stop: the two dict keys the engine reads, each possibly
absent (`none` models a missing key in the Python dict). -/
structure Stop where
  shipment_id : Option String
  location : Option String
deriving DecidableEq

/-- `stop.get("location", "")` from the source. -/
def Stop.loc (s : Stop) : String := s.location.getD ""

/-- `stop.get("shipment_id", "")` from the source. -/
def Stop.sid (s : Stop) : String := s.shipment_id.getD ""

/-- `self.avg_speed_kmh = 60` from `RouteOptimizer.__init__`. -/
def avg_speed_kmh : ℕ := 60

/-- `sum(ord(c) for c in s)`: the character-code sum used as a string hash. -/
def charSum (s : String) : ℕ := s.data.foldl (fun a c => a + c.toNat) 0

/-- `RouteOptimizer._estimate_distance`: `0` for equal strings, otherwise
`50 + (abs(hash1 - hash2) % 450)`. -/
def estimate_distance (loc1 loc2 : String) : ℕ :=
  if loc1 = loc2 then 0
  else 50 + ((charSum loc1 : ℤ) - (charSum loc2 : ℤ)).natAbs % 450

/-- `RouteOptimizer._calculate_total_distance`: walk the route accumulating
`_estimate_distance(current, stop.location)`, updating `current`. -/
def calculate_total_distance (route : List Stop) (start : String) : ℕ :=
  match route with
  | [] => 0
  | s :: rest => estimate_distance start s.loc + calculate_total_distance rest s.loc

/-- Python's `round` to an integer: round half to even (banker's rounding). -/
def roundHalfEven (q : ℚ) : ℤ :=
  let n := ⌊q⌋
  if q - n < 1/2 then n
  else if 1/2 < q - n then n + 1
  else if n % 2 = 0 then n else n + 1

/-- Python `round(x, 2)` over the rationals. -/
def round2 (q : ℚ) : ℚ := (roundHalfEven (q * 100) : ℚ) / 100

/-- Python `round(x, 1)` over the rationals. -/
def round1 (q : ℚ) : ℚ := (roundHalfEven (q * 10) : ℚ) / 10

/-- One entry of the `optimized_sequence` list built by the formatter.
`estimated_arrival` keeps the cumulative time that the source renders as
`f"+{current_time:.1f}h"`. -/
structure RouteStopEntry where
  shipment_id : String
  sequence : ℕ
  location : String
  estimated_arrival : ℚ
  distance_from_previous : ℚ
deriving DecidableEq

/-- The response dict returned by the optimizer. -/
structure RouteResult where
  optimized_sequence : List RouteStopEntry
  total_distance_km : ℚ
  total_time_hours : ℚ
  fuel_savings_percent : ℚ
deriving DecidableEq

/-- The per-stop loop of `_format_route_response`: threads the running
current location, cumulative time and 0-based index. -/
def formatStops (current : String) (current_time : ℚ) (idx : ℕ) :
    List Stop → List RouteStopEntry
  | [] => []
  | s :: rest =>
    let d := estimate_distance current s.loc
    let t := current_time + (d : ℚ) / (avg_speed_kmh : ℚ)
    { shipment_id := s.sid
      sequence := idx + 1
      location := s.loc
      estimated_arrival := t
      distance_from_previous := round2 (d : ℚ) } :: formatStops s.loc t (idx + 1) rest

/-- `RouteOptimizer._format_route_response`.  The savings computation divides
by `unoptimized_distance = _calculate_total_distance(route, start)`; when that
is `0`, Python raises `ZeroDivisionError`, embedded here as `none`. -/
def format_route_response (route : List Stop) (start : String)
    (total_distance : ℕ) : Option RouteResult :=
  let unoptimized_distance := calculate_total_distance route start
  if unoptimized_distance = 0 then none
  else some
    { optimized_sequence := formatStops start 0 0 route
      total_distance_km := round2 (total_distance : ℚ)
      total_time_hours := round2 ((total_distance : ℚ) / (avg_speed_kmh : ℚ))
      fuel_savings_percent := round1 (max 0
        (((unoptimized_distance : ℚ) - (total_distance : ℚ))
          / (unoptimized_distance : ℚ) * 100)) }

/-- All ways of picking one element out of a list, in order: the pairs
`(l[i], l with index i removed)` for `i = 0, 1, ...`. -/
def removals {α : Type} : List α → List (α × List α)
  | [] => []
  | x :: xs => (x, xs) :: (removals xs).map (fun p => (p.1, x :: p.2))

/-- `itertools.permutations`, by fuel on the length: select each element in
turn as the head and recurse, which enumerates permutations in lexicographic
order with respect to input positions. -/
def permsAux {α : Type} : ℕ → List α → List (List α)
  | 0, _ => [[]]
  | n + 1, l => (removals l).flatMap (fun p => (permsAux n p.2).map (p.1 :: ·))

/-- `itertools.permutations(stops)` as a list of lists. -/
def permutationsPy {α : Type} (l : List α) : List (List α) :=
  permsAux l.length l

/-- One iteration of the `best_route`/`best_distance` tracking loop of
`_brute_force_optimize`: `none` is the initial `float('inf')` state, and a
strictly smaller distance replaces the incumbent. -/
def bestStep (start : String) (best : Option (List Stop × ℕ))
    (perm : List Stop) : Option (List Stop × ℕ) :=
  match best with
  | none => some (perm, calculate_total_distance perm start)
  | some (r, d) =>
    if calculate_total_distance perm start < d
    then some (perm, calculate_total_distance perm start)
    else some (r, d)

/-- The `for perm in itertools.permutations(stops)` loop of
`_brute_force_optimize`. -/
def bestFold (start : String) (perms : List (List Stop)) :
    Option (List Stop × ℕ) :=
  perms.foldl (bestStep start) none

/-- The route chosen by the brute-force branch (before formatting). -/
def bruteRouteOf (stops : List Stop) (start : String) : List Stop :=
  match bestFold start (permutationsPy stops) with
  | some (r, _) => r
  | none => []

/-- `RouteOptimizer._brute_force_optimize`: try all permutations, keep the
first minimum, format the winner. -/
def brute_force_optimize (stops : List Stop) (start : String) :
    Option RouteResult :=
  match bestFold start (permutationsPy stops) with
  | some (r, d) => format_route_response r start d
  | none => none

/-- Python `min(unvisited, key=...)`: the first element attaining the minimal
key, via the left fold that keeps the incumbent on ties. -/
def pickMin (current : String) : List Stop → Option Stop
  | [] => none
  | x :: xs => some (xs.foldl
      (fun b t =>
        if estimate_distance current t.loc < estimate_distance current b.loc
        then t else b) x)

/-- The `while unvisited` loop of `_nearest_neighbor_optimize`: select the
nearest unvisited stop, append it, `unvisited.remove(nearest)` (erase the
first equal element), move there.  Fuel is the list length. -/
def nnAux : ℕ → String → List Stop → List Stop × ℕ
  | 0, _, _ => ([], 0)
  | n + 1, current, unvisited =>
    match pickMin current unvisited with
    | none => ([], 0)
    | some nearest =>
      let d := estimate_distance current nearest.loc
      let rest := nnAux n nearest.loc (unvisited.erase nearest)
      (nearest :: rest.1, d + rest.2)

/-- The route chosen by the nearest-neighbor branch (before formatting). -/
def nnRouteOf (stops : List Stop) (start : String) : List Stop :=
  (nnAux stops.length start stops).1

/-- `RouteOptimizer._nearest_neighbor_optimize`. -/
def nearest_neighbor_optimize (stops : List Stop) (start : String) :
    Option RouteResult :=
  let r := nnAux stops.length start stops
  format_route_response r.1 start r.2

/-- `RouteOptimizer._empty_route`. -/
def empty_route : RouteResult :=
  { optimized_sequence := []
    total_distance_km := 0
    total_time_hours := 0
    fuel_savings_percent := 0 }

/-- `RouteOptimizer._single_stop_route`: no division by a computed quantity,
so it never fails. -/
def single_stop_route (s : Stop) (start : String) : RouteResult :=
  let d := estimate_distance start s.loc
  let time := (d : ℚ) / (avg_speed_kmh : ℚ)
  { optimized_sequence := [{
      shipment_id := s.sid
      sequence := 1
      location := s.loc
      estimated_arrival := time
      distance_from_previous := round2 (d : ℚ) }]
    total_distance_km := round2 (d : ℚ)
    total_time_hours := round2 time
    fuel_savings_percent := 0 }

/-- `RouteOptimizer.optimize`: dispatch on the stop count — 0 and 1 stops are
special-cased, `≤ 8` goes to brute force, more to nearest neighbor. -/
def optimize (stops : List Stop) (start_location : String) :
    Option RouteResult :=
  match stops with
  | [] => some empty_route
  | [s] => some (single_stop_route s start_location)
  | _ :: _ :: _ =>
    if stops.length ≤ 8 then brute_force_optimize stops start_location
    else nearest_neighbor_optimize stops start_location

/-! Helper lemmas. -/

/-- Rounding an integer leaves it unchanged. -/
lemma roundHalfEven_intCast (n : ℤ) : roundHalfEven (n : ℚ) = n := by
  simp [roundHalfEven]

/-- Python `round(x, 2)` is the identity on naturals. -/
lemma round2_natCast (n : ℕ) : round2 (n : ℚ) = (n : ℚ) := by
  have h : ((n : ℚ) * 100) = (((n * 100 : ℕ) : ℤ) : ℚ) := by push_cast; ring
  rw [round2, h, roundHalfEven_intCast]
  push_cast
  field_simp

/-- Python `round(0, 1) = 0`. -/
lemma round1_zero : round1 0 = 0 := by
  norm_num [round1, roundHalfEven]

/-- Every pair listed by `removals` is an element together with the rest of
the list, so reassembling it gives a permutation of the original list. -/
lemma mem_removals {α : Type} :
    ∀ {l : List α} {p : α × List α}, p ∈ removals l →
      p.2.length + 1 = l.length ∧ l.Perm (p.1 :: p.2) := by
  intro l
  induction l with
  | nil => intro p h; simp [removals] at h
  | cons x xs ih =>
    intro p h
    simp only [removals, List.mem_cons, List.mem_map] at h
    rcases h with h | ⟨q, hq, rfl⟩
    · subst h; exact ⟨rfl, List.Perm.refl _⟩
    · obtain ⟨h1, h2⟩ := ih hq
      refine ⟨?_, ?_⟩
      · simp only [List.length_cons]
        omega
      · show (x :: xs).Perm (q.1 :: x :: q.2)
        exact (h2.cons x).trans (List.Perm.swap q.1 x q.2)

/-- Removing a member is one of the removals. -/
lemma mem_removals_of_mem {α : Type} [DecidableEq α] :
    ∀ {l : List α} {x : α}, x ∈ l → (x, l.erase x) ∈ removals l := by
  intro l
  induction l with
  | nil => intro x h; simp at h
  | cons a xs ih =>
    intro x h
    by_cases hax : a = x
    · subst hax
      simp [removals, List.erase_cons_head]
    · have hx : x ∈ xs := by
        rcases List.mem_cons.mp h with h' | h'
        · exact absurd h'.symm hax
        · exact h'
      have : (a :: xs).erase x = a :: xs.erase x := by
        simp [List.erase_cons, hax]
      rw [this]
      simp only [removals, List.mem_cons, List.mem_map]
      exact Or.inr ⟨(x, xs.erase x), ih hx, rfl⟩

/-- Every list enumerated by `permsAux` (run with fuel equal to the length)
is a permutation of the input. -/
lemma perm_of_mem_permsAux {α : Type} :
    ∀ {n : ℕ} {l q : List α}, q ∈ permsAux n l → l.length = n → q.Perm l := by
  intro n
  induction n with
  | zero =>
    intro l q hq hl
    simp only [permsAux, List.mem_singleton] at hq
    subst hq
    exact (List.eq_nil_of_length_eq_zero hl) ▸ List.Perm.refl _
  | succ n ih =>
    intro l q hq hl
    simp only [permsAux, List.mem_flatMap, List.mem_map] at hq
    obtain ⟨p, hp, q', hq', rfl⟩ := hq
    obtain ⟨hlen, hperm⟩ := mem_removals hp
    have hrec : q'.Perm p.2 := ih hq' (by omega)
    exact ((hrec.cons p.1).trans hperm.symm).symm.symm

/-- Completeness: every permutation of `l` occurs in the enumeration. -/
lemma mem_permsAux_of_perm {α : Type} [DecidableEq α] :
    ∀ {q l : List α}, q.Perm l → q ∈ permsAux l.length l := by
  intro q
  induction q with
  | nil =>
    intro l h
    have hl : l = [] := h.symm.eq_nil
    subst hl
    simp [permsAux]
  | cons x q' ih =>
    intro l h
    have hx : x ∈ l := h.subset (List.mem_cons_self x q')
    have hq' : q'.Perm (l.erase x) :=
      (List.cons_perm_iff_perm_erase.mp h).2
    have hlen : (l.erase x).length + 1 = l.length := by
      have := List.length_erase_of_mem hx
      have hpos := List.length_pos_of_mem hx
      omega
    rw [← hlen]
    simp only [permsAux, List.mem_flatMap]
    refine ⟨(x, l.erase x), mem_removals_of_mem hx, ?_⟩
    simp only [List.mem_map]
    exact ⟨q', ih hq', rfl⟩

/-- Python `min`-style left fold with strict improvement: the result is the
first element of `b :: xs` attaining the minimal key — it beats `b`, beats
every element of `xs`, and every element strictly before it is strictly
worse. -/
lemma foldl_minBy {α : Type} (f : α → ℕ) :
    ∀ (xs : List α) (b : α),
      ∃ m, xs.foldl (fun b t => if f t < f b then t else b) b = m ∧
        f m ≤ f b ∧ (∀ t ∈ xs, f m ≤ f t) ∧
        ∃ pre post, b :: xs = pre ++ m :: post ∧ ∀ t ∈ pre, f m < f t := by
  intro xs
  induction xs with
  | nil =>
    intro b
    exact ⟨b, rfl, le_refl _, by simp, [], [], rfl, by simp⟩
  | cons t xs ih =>
    intro b
    by_cases hft : f t < f b
    · obtain ⟨m, heq, hmb, hall, pre, post, hdec, hpre⟩ := ih t
      refine ⟨m, ?_, ?_, ?_, b :: pre, post, ?_, ?_⟩
      · rw [List.foldl_cons]
        simpa [hft] using heq
      · exact le_of_lt (lt_of_le_of_lt hmb hft)
      · intro u hu
        rcases List.mem_cons.mp hu with rfl | hu
        · exact hmb
        · exact hall u hu
      · rw [List.cons_append, ← hdec]
      · intro u hu
        rcases List.mem_cons.mp hu with rfl | hu
        · exact lt_of_le_of_lt hmb hft
        · exact hpre u hu
    · obtain ⟨m, heq, hmb, hall, pre, post, hdec, hpre⟩ := ih b
      have hbt : f b ≤ f t := le_of_not_lt hft
      have hstep : (t :: xs).foldl (fun b t => if f t < f b then t else b) b
          = xs.foldl (fun b t => if f t < f b then t else b) b := by
        rw [List.foldl_cons]
        simp [hft]
      refine ⟨m, hstep.trans heq, hmb, ?_, ?_⟩
      · intro u hu
        rcases List.mem_cons.mp hu with rfl | hu
        · exact le_trans hmb hbt
        · exact hall u hu
      · cases pre with
        | nil =>
          simp only [List.nil_append] at hdec
          injection hdec with h1 h2
          subst h1
          subst h2
          exact ⟨[], t :: xs, rfl, by simp⟩
        | cons a pre' =>
          rw [List.cons_append] at hdec
          injection hdec with h1 h2
          subst h1
          have hma : f m < f b := hpre b (List.mem_cons_self b pre')
          refine ⟨b :: t :: pre', post, ?_, ?_⟩
          · rw [h2]
            simp
          · intro u hu
            rcases List.mem_cons.mp hu with rfl | hu
            · exact hma
            · rcases List.mem_cons.mp hu with rfl | hu
              · exact lt_of_lt_of_le hma hbt
              · exact hpre u (List.mem_cons_of_mem b hu)

/-- The `best_route`/`best_distance` loop started on an incumbent computes
the same element as the plain min-by fold, and its stored distance is the
cost of the stored route. -/
lemma bestFold_go (start : String) :
    ∀ (l : List (List Stop)) (r : List Stop),
      ∃ m, l.foldl
          (fun b t => if calculate_total_distance t start
            < calculate_total_distance b start then t else b) r = m ∧
        List.foldl (bestStep start)
          (some (r, calculate_total_distance r start)) l
          = some (m, calculate_total_distance m start) := by
  intro l
  induction l with
  | nil => intro r; exact ⟨r, rfl, rfl⟩
  | cons t l ih =>
    intro r
    by_cases h : calculate_total_distance t start < calculate_total_distance r start
    · obtain ⟨m, heq, hfold⟩ := ih t
      refine ⟨m, ?_, ?_⟩
      · rw [List.foldl_cons]
        simpa [h] using heq
      · rw [List.foldl_cons]
        have : bestStep start (some (r, calculate_total_distance r start)) t
            = some (t, calculate_total_distance t start) := by
          simp [bestStep, h]
        rw [this]
        exact hfold
    · obtain ⟨m, heq, hfold⟩ := ih r
      refine ⟨m, ?_, ?_⟩
      · rw [List.foldl_cons]
        simpa [h] using heq
      · rw [List.foldl_cons]
        have : bestStep start (some (r, calculate_total_distance r start)) t
            = some (r, calculate_total_distance r start) := by
          simp [bestStep, h]
        rw [this]
        exact hfold

/-- The input list itself is among its enumerated permutations. -/
lemma self_mem_permutationsPy {α : Type} [DecidableEq α] (l : List α) :
    l ∈ permutationsPy l :=
  mem_permsAux_of_perm (List.Perm.refl l)

/-- Full characterization of the brute-force selection: `bestFold` returns
the first permutation of minimal cost, paired with its cost. -/
lemma bestFold_spec (start : String) (stops : List Stop) :
    ∃ m, bestFold start (permutationsPy stops)
        = some (m, calculate_total_distance m start) ∧
      bruteRouteOf stops start = m ∧
      m ∈ permutationsPy stops ∧
      (∀ p ∈ permutationsPy stops,
        calculate_total_distance m start ≤ calculate_total_distance p start) ∧
      ∃ pre post, permutationsPy stops = pre ++ m :: post ∧
        ∀ p ∈ pre,
          calculate_total_distance m start < calculate_total_distance p start := by
  have hne : permutationsPy stops ≠ [] :=
    List.ne_nil_of_mem (self_mem_permutationsPy stops)
  obtain ⟨q, qs, hlist⟩ := List.exists_cons_of_ne_nil hne
  obtain ⟨m, heq, hfold⟩ := bestFold_go start qs q
  obtain ⟨m', heq', hmb, hall, pre, post, hdec, hpre⟩ :=
    foldl_minBy (fun p => calculate_total_distance p start) qs q
  have hmm : m = m' := heq.symm.trans heq'
  subst hmm
  have hbest : bestFold start (permutationsPy stops)
      = some (m, calculate_total_distance m start) := by
    rw [hlist]
    unfold bestFold
    rw [List.foldl_cons]
    exact hfold
  refine ⟨m, hbest, ?_, ?_, ?_, pre, post, hlist.trans hdec, hpre⟩
  · unfold bruteRouteOf
    rw [hbest]
  · rw [hlist, hdec]
    simp
  · intro p hp
    rw [hlist] at hp
    rcases List.mem_cons.mp hp with rfl | hp
    · exact hmb
    · exact hall p hp

/-- `min(unvisited, key=...)` on a non-empty list: the result is a member of
minimal distance from the current location, and every earlier member is
strictly farther (ties go to the first occurrence). -/
lemma pickMin_spec (cur : String) {l : List Stop} (hl : l ≠ []) :
    ∃ m, pickMin cur l = some m ∧ m ∈ l ∧
      (∀ t ∈ l, estimate_distance cur m.loc ≤ estimate_distance cur t.loc) ∧
      ∃ pre post, l = pre ++ m :: post ∧
        ∀ t ∈ pre,
          estimate_distance cur m.loc < estimate_distance cur t.loc := by
  obtain ⟨x, xs, rfl⟩ := List.exists_cons_of_ne_nil hl
  obtain ⟨m, heq, hmb, hall, pre, post, hdec, hpre⟩ :=
    foldl_minBy (fun s => estimate_distance cur s.loc) xs x
  refine ⟨m, ?_, ?_, ?_, pre, post, hdec, hpre⟩
  · exact congrArg some heq
  · rw [hdec]
    simp
  · intro t ht
    rcases List.mem_cons.mp ht with rfl | ht
    · exact hmb
    · exact hall t ht

/-- The nearest-neighbor loop (run with fuel equal to the length) returns a
permutation of its unvisited set. -/
lemma nnAux_perm :
    ∀ (n : ℕ) (cur : String) (l : List Stop), l.length = n →
      ((nnAux n cur l).1).Perm l := by
  intro n
  induction n with
  | zero =>
    intro cur l hl
    rw [List.eq_nil_of_length_eq_zero hl]
    simp [nnAux]
  | succ n ih =>
    intro cur l hl
    have hne : l ≠ [] := by
      intro h
      rw [h] at hl
      simp at hl
    obtain ⟨m, hpick, hm, _, _⟩ := pickMin_spec cur hne
    have hlen : (l.erase m).length = n := by
      have := List.length_erase_of_mem hm
      omega
    have hrec := ih m.loc (l.erase m) hlen
    show ((nnAux (n + 1) cur l).1).Perm l
    simp only [nnAux, hpick]
    exact (hrec.cons m).trans (List.perm_cons_erase hm).symm

/-- The accumulated total of the nearest-neighbor loop equals the route cost
of the order it builds. -/
lemma nnAux_total :
    ∀ (n : ℕ) (cur : String) (l : List Stop), l.length = n →
      (nnAux n cur l).2 = calculate_total_distance (nnAux n cur l).1 cur := by
  intro n
  induction n with
  | zero =>
    intro cur l _
    simp [nnAux, calculate_total_distance]
  | succ n ih =>
    intro cur l hl
    have hne : l ≠ [] := by
      intro h
      rw [h] at hl
      simp at hl
    obtain ⟨m, hpick, hm, _, _⟩ := pickMin_spec cur hne
    have hlen : (l.erase m).length = n := by
      have := List.length_erase_of_mem hm
      omega
    have hrec := ih m.loc (l.erase m) hlen
    simp only [nnAux, hpick, calculate_total_distance]
    omega

/-- Field-level description of a successful `_format_route_response` call:
the re-evaluated route cost is non-zero, and each response field is the
stated expression. -/
lemma format_fields {route : List Stop} {start : String} {t : ℕ}
    {res : RouteResult}
    (h : format_route_response route start t = some res) :
    calculate_total_distance route start ≠ 0 ∧
    res.optimized_sequence = formatStops start 0 0 route ∧
    res.total_distance_km = (t : ℚ) ∧
    res.total_time_hours = round2 ((t : ℚ) / 60) ∧
    res.fuel_savings_percent = round1 (max 0
      (((calculate_total_distance route start : ℚ) - (t : ℚ))
        / (calculate_total_distance route start : ℚ) * 100)) := by
  by_cases hu : calculate_total_distance route start = 0
  · rw [format_route_response, if_pos hu] at h
    exact absurd h (by simp)
  · rw [format_route_response, if_neg hu] at h
    rw [Option.some_inj] at h
    subst h
    refine ⟨hu, rfl, ?_, ?_, rfl⟩
    · exact round2_natCast t
    · rfl

/-- A formatted response whose passed-in total is the recomputed cost of its
own route always carries a zero savings figure. -/
lemma format_savings_self {route : List Stop} {start : String}
    {res : RouteResult}
    (h : format_route_response route start
      (calculate_total_distance route start) = some res) :
    res.fuel_savings_percent = 0 := by
  obtain ⟨hu, _, _, _, hs⟩ := format_fields h
  rw [hs, sub_self, zero_div, zero_mul, max_self, round1_zero]

/-! Theorems settling the claims. -/

/-- C5: the Distance Oracle `_estimate_distance` is symmetric for every pair
of strings and returns exactly `0` on equal arguments; for distinct strings
it equals `50 + (|h(a) - h(b)| mod 450)` where `h` sums the character codes,
a value in `[50, 499]`. -/
theorem estimate_distance_symm_zero_range (a b : String) :
    estimate_distance a b = estimate_distance b a ∧
    estimate_distance a a = 0 ∧
    (a ≠ b →
      estimate_distance a b
        = 50 + ((charSum a : ℤ) - (charSum b : ℤ)).natAbs % 450 ∧
      50 ≤ estimate_distance a b ∧ estimate_distance a b ≤ 499) := by
  refine ⟨?_, by simp [estimate_distance], ?_⟩
  · unfold estimate_distance
    by_cases hab : a = b
    · simp [hab]
    · have hba : ¬b = a := fun h => hab h.symm
      rw [if_neg hab, if_neg hba]
      have : ((charSum a : ℤ) - (charSum b : ℤ)).natAbs
          = ((charSum b : ℤ) - (charSum a : ℤ)).natAbs := by omega
      rw [this]
  · intro hab
    have hmod : ((charSum a : ℤ) - (charSum b : ℤ)).natAbs % 450 < 450 :=
      Nat.mod_lt _ (by norm_num)
    refine ⟨by simp [estimate_distance, hab], ?_, ?_⟩
    · simp [estimate_distance, hab]
    · simp only [estimate_distance, if_neg hab]
      omega

/-- Witness for C5 at the concrete pair `"A"`, `"B"`. -/
theorem estimate_distance_symm_zero_range_witness :
    estimate_distance "A" "B" = estimate_distance "B" "A" ∧
    estimate_distance "A" "A" = 0 ∧
    (estimate_distance "A" "B"
        = 50 + ((charSum "A" : ℤ) - (charSum "B" : ℤ)).natAbs % 450 ∧
      50 ≤ estimate_distance "A" "B" ∧ estimate_distance "A" "B" ≤ 499) := by
  obtain ⟨h1, h2, h3⟩ := estimate_distance_symm_zero_range "A" "B"
  exact ⟨h1, h2, h3 (by decide)⟩

/-- C7: zero stops yield the empty result with all aggregates `0`, straight
from the dedicated `_empty_route` branch; one stop yields the dedicated
single-entry `_single_stop_route` result whose total distance is exactly
`distance(origin, stop.location)` and whose savings figure is `0` — neither
branch invokes a sequencer. -/
theorem optimize_empty_singleton (start : String) (s : Stop) :
    optimize [] start = some empty_route ∧
    empty_route.optimized_sequence = [] ∧
    empty_route.total_distance_km = 0 ∧
    empty_route.total_time_hours = 0 ∧
    empty_route.fuel_savings_percent = 0 ∧
    optimize [s] start = some (single_stop_route s start) ∧
    (single_stop_route s start).optimized_sequence.length = 1 ∧
    (single_stop_route s start).total_distance_km
      = (estimate_distance start s.loc : ℚ) ∧
    (single_stop_route s start).fuel_savings_percent = 0 := by
  refine ⟨rfl, rfl, rfl, rfl, rfl, rfl, rfl, ?_, rfl⟩
  exact round2_natCast _

/-- Stop `s1` at location `"A"` of the spec's concrete scenario. -/
def stopA : Stop := ⟨some "s1", some "A"⟩

/-- Stop `s2` at location `"B"` of the spec's concrete scenario. -/
def stopB : Stop := ⟨some "s2", some "B"⟩

/-- Stop `s3` at location `"C"` of the spec's concrete scenario. -/
def stopC : Stop := ⟨some "s3", some "C"⟩

/-- The spec's concrete scenario: origin `"Start"`, stops `A`, `B`, `C`. -/
def scenarioStops : List Stop := [stopA, stopB, stopC]

/-- C6: on the concrete scenario the pairwise distances are exactly as the
spec lists them, the exact sequencer returns the order `C, B, A`, its total
distance `161` is the unique minimum over all `6` permutations, and the
derived total time is `161/60` hours. -/
theorem scenario_exact_route :
    estimate_distance "Start" "A" = 61 ∧
    estimate_distance "Start" "B" = 60 ∧
    estimate_distance "Start" "C" = 59 ∧
    estimate_distance "A" "B" = 51 ∧
    estimate_distance "A" "C" = 52 ∧
    estimate_distance "B" "C" = 51 ∧
    bruteRouteOf scenarioStops "Start" = [stopC, stopB, stopA] ∧
    calculate_total_distance [stopC, stopB, stopA] "Start" = 161 ∧
    (permutationsPy scenarioStops).length = 6 ∧
    ((permutationsPy scenarioStops).all
      (fun q => 161 ≤ calculate_total_distance q "Start")) ∧
    (permutationsPy scenarioStops).filter
        (fun q => calculate_total_distance q "Start" = 161)
      = [[stopC, stopB, stopA]] ∧
    (calculate_total_distance (bruteRouteOf scenarioStops "Start") "Start" : ℚ)
        / (avg_speed_kmh : ℚ) = 161 / 60 := by
  refine ⟨by decide, by decide, by decide, by decide, by decide, by decide,
    by decide, by decide, by decide, by decide, by decide, ?_⟩
  have h : calculate_total_distance (bruteRouteOf scenarioStops "Start") "Start"
      = 161 := by decide
  rw [h]
  norm_num [avg_speed_kmh]

/-- C1: for `2 ≤ |stops| ≤ 8` the brute-force branch is taken by `optimize`,
and the route it picks costs no more than any permutation of the stop set;
every permutation enumerated strictly before it costs strictly more, so ties
go to the first permutation in enumeration order. -/
theorem brute_force_exact_optimal (stops : List Stop) (start : String)
    (h2 : 2 ≤ stops.length) (h8 : stops.length ≤ 8) :
    optimize stops start = brute_force_optimize stops start ∧
    (∀ q, q.Perm stops →
      calculate_total_distance (bruteRouteOf stops start) start
        ≤ calculate_total_distance q start) ∧
    ∃ pre post,
      permutationsPy stops = pre ++ bruteRouteOf stops start :: post ∧
      ∀ p ∈ pre,
        calculate_total_distance (bruteRouteOf stops start) start
          < calculate_total_distance p start := by
  obtain ⟨m, _, hbr, _, hall, pre, post, hdec, hpre⟩ := bestFold_spec start stops
  refine ⟨?_, ?_, ?_⟩
  · match stops, h2 with
    | a :: b :: rest, _ =>
      show (if (a :: b :: rest).length ≤ 8 then _ else _) = _
      rw [if_pos h8]
  · intro q hq
    rw [hbr]
    exact hall q (mem_permsAux_of_perm hq)
  · rw [hbr]
    exact ⟨pre, post, hdec, hpre⟩

/-- Witness for C1 at the two-stop input `[stopA, stopB]` from `"Start"`. -/
theorem brute_force_exact_optimal_witness :
    2 ≤ ([stopA, stopB] : List Stop).length ∧
    ([stopA, stopB] : List Stop).length ≤ 8 ∧
    (optimize [stopA, stopB] "Start"
        = brute_force_optimize [stopA, stopB] "Start" ∧
      (∀ q, q.Perm [stopA, stopB] →
        calculate_total_distance (bruteRouteOf [stopA, stopB] "Start") "Start"
          ≤ calculate_total_distance q "Start") ∧
      ∃ pre post,
        permutationsPy [stopA, stopB]
          = pre ++ bruteRouteOf [stopA, stopB] "Start" :: post ∧
        ∀ p ∈ pre,
          calculate_total_distance (bruteRouteOf [stopA, stopB] "Start") "Start"
            < calculate_total_distance p "Start") :=
  ⟨by decide, by decide,
    brute_force_exact_optimal [stopA, stopB] "Start" (by decide) (by decide)⟩

/-- C2: both sequencers return a permutation of the input stop list — same
length, same multiset of stops, and hence the same multiset of shipment
identifiers (accessed as the source does, via `get` with default `""`). -/
theorem sequencers_permutation (stops : List Stop) (start : String) :
    (bruteRouteOf stops start).Perm stops ∧
    (nnRouteOf stops start).Perm stops ∧
    (bruteRouteOf stops start).length = stops.length ∧
    (nnRouteOf stops start).length = stops.length ∧
    ((bruteRouteOf stops start).map Stop.sid).Perm (stops.map Stop.sid) ∧
    ((nnRouteOf stops start).map Stop.sid).Perm (stops.map Stop.sid) := by
  obtain ⟨m, _, hbr, hm, _, _⟩ := bestFold_spec start stops
  have h1 : (bruteRouteOf stops start).Perm stops := by
    rw [hbr]
    exact perm_of_mem_permsAux hm rfl
  have h2 : (nnRouteOf stops start).Perm stops := nnAux_perm _ start stops rfl
  exact ⟨h1, h2, h1.length_eq, h2.length_eq, h1.map Stop.sid, h2.map Stop.sid⟩

/-- C4: whenever `optimize` produces a result, its `fuel_savings_percent`
is `0`: the formatter re-evaluates the distance of the very route it was
handed and compares it to itself, clipped below at `0`. -/
theorem fuel_savings_always_zero (stops : List Stop) (start : String)
    (res : RouteResult) (h : optimize stops start = some res) :
    res.fuel_savings_percent = 0 := by
  match stops with
  | [] =>
    rw [Option.some_inj.mp h.symm]
    rfl
  | [s] =>
    rw [Option.some_inj.mp h.symm]
    rfl
  | a :: b :: rest =>
    have h' : (if (a :: b :: rest).length ≤ 8
        then brute_force_optimize (a :: b :: rest) start
        else nearest_neighbor_optimize (a :: b :: rest) start) = some res := h
    by_cases hlen : (a :: b :: rest).length ≤ 8
    · rw [if_pos hlen] at h'
      obtain ⟨m, hfold, _, _, _, _⟩ := bestFold_spec start (a :: b :: rest)
      rw [brute_force_optimize, hfold] at h'
      exact format_savings_self h'
    · rw [if_neg hlen] at h'
      rw [nearest_neighbor_optimize] at h'
      rw [nnAux_total _ start _ rfl] at h'
      exact format_savings_self h'

/-- Witness for C4 at the singleton input `[stopA]` from `"Start"`. -/
theorem fuel_savings_always_zero_witness :
    (single_stop_route stopA "Start").fuel_savings_percent = 0 :=
  fuel_savings_always_zero [stopA] "Start" (single_stop_route stopA "Start") rfl

/-- C3 is violated by the code: with two stops whose location equals the
origin, every distance is `0`, so `_format_route_response` divides by a zero
`unoptimized_distance` and Python raises `ZeroDivisionError` (embedded as
`none`). -/
theorem optimize_division_by_zero :
    optimize [⟨some "s1", some "A"⟩, ⟨some "s2", some "A"⟩] "A" = none := by
  decide

/-- C8: every step of the nearest-neighbor loop selects an unvisited stop at
minimal distance from the current location; every unvisited stop listed
before it is strictly farther, so ties go to the first occurrence in the
original input order (which `List.erase` preserves, witnessed by the
sublist fact), and the loop continues from the chosen stop with that stop
removed. -/
theorem nearest_neighbor_greedy_step (cur : String) (l : List Stop)
    (hl : l ≠ []) :
    ∃ m, pickMin cur l = some m ∧ m ∈ l ∧
      (∀ t ∈ l, estimate_distance cur m.loc ≤ estimate_distance cur t.loc) ∧
      (∃ pre post, l = pre ++ m :: post ∧
        ∀ t ∈ pre,
          estimate_distance cur m.loc < estimate_distance cur t.loc) ∧
      (nnAux l.length cur l).1
        = m :: (nnAux (l.erase m).length m.loc (l.erase m)).1 ∧
      (l.erase m).Sublist l := by
  obtain ⟨m, hpick, hm, hmin, pre, post, hdec, hpre⟩ := pickMin_spec cur hl
  refine ⟨m, hpick, hm, hmin, ⟨pre, post, hdec, hpre⟩, ?_,
    List.erase_sublist m l⟩
  have hlen : l.length = (l.erase m).length + 1 := by
    have := List.length_erase_of_mem hm
    have := List.length_pos_of_mem hm
    omega
  rw [hlen]
  simp only [nnAux, hpick]

/-- Witness for C8 at the two-stop unvisited set `[stopA, stopB]` from
`"Start"`. -/
theorem nearest_neighbor_greedy_step_witness :
    ∃ m, pickMin "Start" [stopA, stopB] = some m ∧ m ∈ [stopA, stopB] ∧
      (∀ t ∈ [stopA, stopB],
        estimate_distance "Start" m.loc ≤ estimate_distance "Start" t.loc) ∧
      (∃ pre post, [stopA, stopB] = pre ++ m :: post ∧
        ∀ t ∈ pre,
          estimate_distance "Start" m.loc < estimate_distance "Start" t.loc) ∧
      (nnAux ([stopA, stopB] : List Stop).length "Start" [stopA, stopB]).1
        = m :: (nnAux (([stopA, stopB] : List Stop).erase m).length m.loc
            (([stopA, stopB] : List Stop).erase m)).1 ∧
      (([stopA, stopB] : List Stop).erase m).Sublist [stopA, stopB] :=
  nearest_neighbor_greedy_step "Start" [stopA, stopB] (by decide)

/-- The reported `total_time_hours` of a successful format call is the
rounded quotient of the reported `total_distance_km` by the average speed. -/
lemma format_time_eq {route : List Stop} {start : String} {t : ℕ}
    {res : RouteResult}
    (h : format_route_response route start t = some res) :
    res.total_time_hours = round2 (res.total_distance_km / 60) := by
  obtain ⟨_, _, hdist, htime, _⟩ := format_fields h
  rw [htime, hdist]

/-- C9 as amended: the reported total time is `round(total_distance / 60, 2)`
— the rounded quotient of the reported total distance (itself an unrounded
integer) by the average speed — rather than the exact quotient of the two
reported fields. -/
theorem reported_time_is_rounded_quotient (stops : List Stop) (start : String)
    (res : RouteResult) (h : optimize stops start = some res) :
    res.total_time_hours = round2 (res.total_distance_km / 60) := by
  match stops with
  | [] =>
    rw [Option.some_inj.mp h.symm]
    show (0 : ℚ) = round2 (0 / 60)
    norm_num [round2, roundHalfEven]
  | [s] =>
    rw [Option.some_inj.mp h.symm]
    show round2 ((estimate_distance start s.loc : ℚ) / (avg_speed_kmh : ℚ))
      = round2 (round2 ((estimate_distance start s.loc : ℚ)) / 60)
    rw [round2_natCast]
    rfl
  | a :: b :: rest =>
    have h' : (if (a :: b :: rest).length ≤ 8
        then brute_force_optimize (a :: b :: rest) start
        else nearest_neighbor_optimize (a :: b :: rest) start) = some res := h
    by_cases hlen : (a :: b :: rest).length ≤ 8
    · rw [if_pos hlen] at h'
      obtain ⟨m, hfold, _, _, _, _⟩ := bestFold_spec start (a :: b :: rest)
      rw [brute_force_optimize, hfold] at h'
      exact format_time_eq h'
    · rw [if_neg hlen] at h'
      exact format_time_eq h'

/-- Witness for the amended C9 at the singleton input `[stopA]`. -/
theorem reported_time_is_rounded_quotient_witness :
    (single_stop_route stopA "Start").total_time_hours
      = round2 ((single_stop_route stopA "Start").total_distance_km / 60) :=
  reported_time_is_rounded_quotient [stopA] "Start"
    (single_stop_route stopA "Start") rfl

/-- If the re-evaluated cost of the route is non-zero, formatting succeeds. -/
lemma format_some (route : List Stop) (start : String) (t : ℕ)
    (hu : calculate_total_distance route start ≠ 0) :
    ∃ res, format_route_response route start t = some res := by
  rw [format_route_response, if_neg hu]
  exact ⟨_, rfl⟩

/-- C9 as literally stated is false: on the concrete scenario the reported
total distance is `161` but the reported total time is
`round(161/60, 2) = 2.68 = 67/25`, which is not `161/60`. -/
theorem reported_time_rounding_counterexample :
    (optimize scenarioStops "Start").map RouteResult.total_distance_km
      = some (161 : ℚ) ∧
    (optimize scenarioStops "Start").map RouteResult.total_time_hours
      = some ((67 : ℚ) / 25) ∧
    ((67 : ℚ) / 25) ≠ (161 : ℚ) / 60 := by
  have hopt : optimize scenarioStops "Start"
      = brute_force_optimize scenarioStops "Start" := rfl
  obtain ⟨m, hfold, hbr, _, _, _⟩ := bestFold_spec "Start" scenarioStops
  have hmval : m = [stopC, stopB, stopA] := by
    have h : bruteRouteOf scenarioStops "Start" = [stopC, stopB, stopA] := by
      decide
    rw [hbr] at h
    exact h
  subst hmval
  have hcost : calculate_total_distance [stopC, stopB, stopA] "Start" = 161 := by
    decide
  obtain ⟨res, hres⟩ := format_some [stopC, stopB, stopA] "Start" 161
    (by rw [hcost]; norm_num)
  have hb : brute_force_optimize scenarioStops "Start" = some res := by
    rw [brute_force_optimize, hfold, hcost]
    exact hres
  obtain ⟨_, _, hdist, htime, _⟩ := format_fields hres
  rw [hopt, hb]
  simp only [Option.map_some']
  rw [hdist, htime]
  refine ⟨by norm_num, ?_, by norm_num⟩
  norm_num [round2, roundHalfEven]

/-- Replacing each possibly-missing dict key by the empty-string default the
source reads through `get`: a stop with both keys present and the values the
engine actually uses. -/
def normalizeStop (s : Stop) : Stop := ⟨some s.sid, some s.loc⟩

/-- Normalization does not change the location the engine reads. -/
lemma loc_normalize (s : Stop) : (normalizeStop s).loc = s.loc := rfl

/-- Normalization does not change the shipment id the engine reads. -/
lemma sid_normalize (s : Stop) : (normalizeStop s).sid = s.sid := rfl

/-- Route cost is invariant under key normalization. -/
lemma calc_total_norm :
    ∀ (route : List Stop) (start : String),
      calculate_total_distance (route.map normalizeStop) start
        = calculate_total_distance route start := by
  intro route
  induction route with
  | nil => intro start; rfl
  | cons s rest ih =>
    intro start
    simp only [List.map_cons, calculate_total_distance, loc_normalize]
    rw [ih]

/-- The formatted per-stop entries are invariant under key normalization. -/
lemma formatStops_norm :
    ∀ (route : List Stop) (cur : String) (t : ℚ) (idx : ℕ),
      formatStops cur t idx (route.map normalizeStop)
        = formatStops cur t idx route := by
  intro route
  induction route with
  | nil => intro cur t idx; rfl
  | cons s rest ih =>
    intro cur t idx
    simp only [List.map_cons, formatStops, loc_normalize, sid_normalize]
    rw [ih]

/-- The full formatted response is invariant under key normalization. -/
lemma format_norm (route : List Stop) (start : String) (t : ℕ) :
    format_route_response (route.map normalizeStop) start t
      = format_route_response route start t := by
  simp only [format_route_response, calc_total_norm, formatStops_norm]

/-- `removals` commutes with `map`. -/
lemma removals_map {α β : Type} (f : α → β) :
    ∀ (l : List α),
      removals (l.map f) = (removals l).map (fun p => (f p.1, p.2.map f)) := by
  intro l
  induction l with
  | nil => rfl
  | cons x xs ih =>
    simp only [List.map_cons, removals, ih, List.map_map, List.map_cons]
    refine congrArg (_ :: ·) ?_
    apply List.map_congr_left
    intro p _
    rfl

/-- Permutation enumeration commutes with `map`. -/
lemma permsAux_map {α β : Type} (f : α → β) :
    ∀ (n : ℕ) (l : List α),
      permsAux n (l.map f) = (permsAux n l).map (List.map f) := by
  intro n
  induction n with
  | zero => intro l; rfl
  | succ n ih =>
    intro l
    have hfun : ∀ p : α × List α,
        (permsAux n (p.2.map f)).map (f p.1 :: ·)
          = ((permsAux n p.2).map (p.1 :: ·)).map (List.map f) := by
      intro p
      rw [ih, List.map_map, List.map_map]
      rfl
    simp only [permsAux, removals_map, List.flatMap_map, List.map_flatMap]
    simp only [hfun]

/-- `itertools.permutations` commutes with key normalization. -/
lemma permutationsPy_map (l : List Stop) :
    permutationsPy (l.map normalizeStop)
      = (permutationsPy l).map (List.map normalizeStop) := by
  unfold permutationsPy
  rw [List.length_map, permsAux_map]

/-- The tracking loop of the brute-force search, started on matching states,
commutes with key normalization. -/
lemma bestFold_go_norm (start : String) :
    ∀ (perms : List (List Stop)) (r : List Stop) (d : ℕ),
      List.foldl (bestStep start) (some (r.map normalizeStop, d))
          (perms.map (List.map normalizeStop))
        = Option.map (fun q : List Stop × ℕ => (q.1.map normalizeStop, q.2))
            (List.foldl (bestStep start) (some (r, d)) perms) := by
  intro perms
  induction perms with
  | nil => intro r d; rfl
  | cons p ps ih =>
    intro r d
    rw [List.map_cons, List.foldl_cons, List.foldl_cons]
    by_cases h : calculate_total_distance p start < d
    · have h1 : bestStep start (some (r.map normalizeStop, d))
          (p.map normalizeStop)
          = some (p.map normalizeStop, calculate_total_distance p start) := by
        simp [bestStep, calc_total_norm, h]
      have h2 : bestStep start (some (r, d)) p
          = some (p, calculate_total_distance p start) := by
        simp [bestStep, h]
      rw [h1, h2]
      exact ih p _
    · have h1 : bestStep start (some (r.map normalizeStop, d))
          (p.map normalizeStop) = some (r.map normalizeStop, d) := by
        simp [bestStep, calc_total_norm, h]
      have h2 : bestStep start (some (r, d)) p = some (r, d) := by
        simp [bestStep, h]
      rw [h1, h2]
      exact ih r d

/-- The whole brute-force fold commutes with key normalization. -/
lemma bestFold_norm (start : String) (perms : List (List Stop)) :
    bestFold start (perms.map (List.map normalizeStop))
      = Option.map (fun q : List Stop × ℕ => (q.1.map normalizeStop, q.2))
          (bestFold start perms) := by
  cases perms with
  | nil => rfl
  | cons p ps =>
    unfold bestFold
    rw [List.map_cons, List.foldl_cons, List.foldl_cons]
    have h1 : bestStep start none (p.map normalizeStop)
        = some (p.map normalizeStop, calculate_total_distance p start) := by
      simp [bestStep, calc_total_norm]
    have h2 : bestStep start none p
        = some (p, calculate_total_distance p start) := rfl
    rw [h1, h2]
    exact bestFold_go_norm start ps p _

/-- The brute-force optimizer is invariant under key normalization. -/
lemma brute_norm (stops : List Stop) (start : String) :
    brute_force_optimize (stops.map normalizeStop) start
      = brute_force_optimize stops start := by
  unfold brute_force_optimize
  rw [permutationsPy_map, bestFold_norm]
  cases h : bestFold start (permutationsPy stops) with
  | none => rfl
  | some q =>
    show format_route_response (q.1.map normalizeStop) start q.2
      = format_route_response q.1 start q.2
    exact format_norm q.1 start q.2

/-- The `min` fold of the nearest-neighbor loop commutes with key
normalization. -/
lemma pickMin_fold_norm (cur : String) :
    ∀ (xs : List Stop) (b : Stop),
      (xs.map normalizeStop).foldl
          (fun b t => if estimate_distance cur t.loc
            < estimate_distance cur b.loc then t else b) (normalizeStop b)
        = normalizeStop (xs.foldl
            (fun b t => if estimate_distance cur t.loc
              < estimate_distance cur b.loc then t else b) b) := by
  intro xs
  induction xs with
  | nil => intro b; rfl
  | cons t xs ih =>
    intro b
    rw [List.map_cons, List.foldl_cons, List.foldl_cons]
    by_cases h : estimate_distance cur t.loc < estimate_distance cur b.loc
    · have e1 : (if estimate_distance cur (normalizeStop t).loc
          < estimate_distance cur (normalizeStop b).loc
          then normalizeStop t else normalizeStop b) = normalizeStop t := by
        simp only [loc_normalize]
        rw [if_pos h]
      have e2 : (if estimate_distance cur t.loc
          < estimate_distance cur b.loc then t else b) = t := if_pos h
      rw [e1, e2]
      exact ih t
    · have e1 : (if estimate_distance cur (normalizeStop t).loc
          < estimate_distance cur (normalizeStop b).loc
          then normalizeStop t else normalizeStop b) = normalizeStop b := by
        simp only [loc_normalize]
        rw [if_neg h]
      have e2 : (if estimate_distance cur t.loc
          < estimate_distance cur b.loc then t else b) = b := if_neg h
      rw [e1, e2]
      exact ih b

/-- `min(unvisited, key=...)` commutes with key normalization. -/
lemma pickMin_norm (cur : String) (l : List Stop) :
    pickMin cur (l.map normalizeStop)
      = (pickMin cur l).map normalizeStop := by
  cases l with
  | nil => rfl
  | cons x xs => exact congrArg some (pickMin_fold_norm cur xs x)

/-- Erasing the first minimum commutes with key normalization: everything
before the picked stop is strictly farther, so normalization cannot merge it
with an earlier element. -/
lemma erase_map_norm {cur : String} {m : Stop} :
    ∀ (pre post : List Stop),
      (∀ t ∈ pre,
        estimate_distance cur m.loc < estimate_distance cur t.loc) →
      ((pre ++ m :: post).map normalizeStop).erase (normalizeStop m)
        = ((pre ++ m :: post).erase m).map normalizeStop := by
  intro pre
  induction pre with
  | nil =>
    intro post _
    simp [List.erase_cons_head]
  | cons a pre' ih =>
    intro post hpre
    have hlt : estimate_distance cur m.loc < estimate_distance cur a.loc :=
      hpre a (List.mem_cons_self a pre')
    have hne : ¬a = m := by
      intro h
      rw [h] at hlt
      exact lt_irrefl _ hlt
    have hnef : ¬normalizeStop a = normalizeStop m := by
      intro h
      have hloc := congrArg Stop.loc h
      rw [loc_normalize, loc_normalize] at hloc
      rw [hloc] at hlt
      exact lt_irrefl _ hlt
    simp only [List.cons_append, List.map_cons]
    rw [List.erase_cons, List.erase_cons]
    rw [if_neg (by simpa using hnef), if_neg (by simpa using hne)]
    rw [List.map_cons]
    exact congrArg (normalizeStop a :: ·)
      (ih post (fun t ht => hpre t (List.mem_cons_of_mem a ht)))

/-- The whole nearest-neighbor loop commutes with key normalization. -/
lemma nnAux_norm :
    ∀ (n : ℕ) (cur : String) (l : List Stop), l.length = n →
      nnAux n cur (l.map normalizeStop)
        = ((nnAux n cur l).1.map normalizeStop, (nnAux n cur l).2) := by
  intro n
  induction n with
  | zero => intro cur l _; rfl
  | succ n ih =>
    intro cur l hl
    have hne : l ≠ [] := by
      intro h
      rw [h] at hl
      simp at hl
    obtain ⟨m, hpick, hm, _, pre, post, hdec, hpre⟩ := pickMin_spec cur hne
    have hpickf : pickMin cur (l.map normalizeStop)
        = some (normalizeStop m) := by
      rw [pickMin_norm, hpick]
      rfl
    have herase : (l.map normalizeStop).erase (normalizeStop m)
        = (l.erase m).map normalizeStop := by
      rw [hdec]
      exact erase_map_norm pre post hpre
    have hlen : (l.erase m).length = n := by
      have := List.length_erase_of_mem hm
      omega
    simp only [nnAux, hpick, hpickf, herase, loc_normalize]
    rw [ih m.loc (l.erase m) hlen]
    simp [List.map_cons]

/-- The nearest-neighbor optimizer is invariant under key normalization. -/
lemma nn_norm (stops : List Stop) (start : String) :
    nearest_neighbor_optimize (stops.map normalizeStop) start
      = nearest_neighbor_optimize stops start := by
  unfold nearest_neighbor_optimize
  rw [List.length_map, nnAux_norm stops.length start stops rfl]
  exact format_norm _ start _

/-- C10: a stop dict lacking `"location"` or `"shipment_id"` behaves, end to
end through `optimize`, exactly like the same dict with the missing key set
to `""` — the accessors default missing keys to `""`, so no `KeyError`-like
failure exists anywhere in the pipeline. -/
theorem missing_keys_default_to_empty (stops : List Stop) (start : String) :
    optimize (stops.map normalizeStop) start = optimize stops start ∧
    (∀ sid : Option String, Stop.loc ⟨sid, none⟩ = "") ∧
    (∀ loc : Option String, Stop.sid ⟨none, loc⟩ = "") := by
  refine ⟨?_, fun _ => rfl, fun _ => rfl⟩
  match stops with
  | [] => rfl
  | [s] => rfl
  | a :: b :: rest =>
    have hL : optimize ((a :: b :: rest).map normalizeStop) start
        = if ((a :: b :: rest).map normalizeStop).length ≤ 8
          then brute_force_optimize ((a :: b :: rest).map normalizeStop) start
          else nearest_neighbor_optimize
            ((a :: b :: rest).map normalizeStop) start := rfl
    have hR : optimize (a :: b :: rest) start
        = if (a :: b :: rest).length ≤ 8
          then brute_force_optimize (a :: b :: rest) start
          else nearest_neighbor_optimize (a :: b :: rest) start := rfl
    rw [hL, hR, List.length_map]
    by_cases h8 : (a :: b :: rest).length ≤ 8
    · rw [if_pos h8, if_pos h8]
      exact brute_norm _ _
    · rw [if_neg h8, if_neg h8]
      exact nn_norm _ _

end RouteOptimization
